import Mathlib

/-!
Verification of the geometric coverage engine of the orbits repository.

The development shallowly embeds the C++ sources:

* `src/oc/src/DiscreteCoverageChecker.cpp` — the cone-intersection solver
  `projectionAlg` and the access-frame construction
  `getNadirToSpacecraftAccessMatrix`;
* `src/orbitpy/oci/orbitpropcov.cpp` — the main propagation loop with its
  satellite-states file and access-file output.

Machine doubles are idealized as real numbers, but the fallible IEEE
operations are tracked explicitly: `acos` applied outside `[-1, 1]` returns
NaN, and a division whose divisor is exactly zero returns a non-finite value
(±inf, or NaN for `0/0`) which `acos` then maps to NaN.  An `Option ℝ` value
`none` represents such a NaN result; every operation of the embedded code
that can produce NaN goes through `acosF` / `divF` / `normalizeF` below.
-/

open Real List

noncomputable section

/-- IEEE `acos`: defined on `[-1, 1]`, NaN (`none`) outside that domain. -/
def acosF (x : ℝ) : Option ℝ :=
  if |x| ≤ 1 then some (Real.arccos x) else none

/-- IEEE division as used in front of `acos`: a zero divisor produces a
non-finite quotient (±inf, or NaN for `0/0`) and `acos` of any such value is
NaN, so the zero-divisor case is collapsed to `none`. -/
def divF (a b : ℝ) : Option ℝ :=
  if b = 0 then none else some (a / b)

/-- Embedding of `DiscreteCoverageChecker::projectionAlg`
(`src/oc/src/DiscreteCoverageChecker.cpp` lines 16-47).  `sphericalPos` is the
sub-satellite spherical position `(latSSP, lonSSP, H)`; `r` is
`centralBody->GetRadius()`, passed as a parameter.  The source performs
`acos` and the `deltaL` division unguarded; the `Option` components record
where NaN appears: the first component is `latP`, the second `lonP`. -/
def projectionAlg (clock cone : ℝ) (sphericalPos : ℝ × ℝ × ℝ) (r : ℝ) :
    Option ℝ × Option ℝ :=
  let latSSP := sphericalPos.1
  let lonSSP := sphericalPos.2.1
  let H := sphericalPos.2.2
  let sinRho := r / (r + H)
  match (divF (Real.sin cone) sinRho).bind acosF with
  | none => (none, none)
  | some epsilon =>
    let lambda := Real.pi / 2 - cone - epsilon
    let phiE := -clock
    match acosF (Real.cos lambda * Real.sin latSSP +
        Real.sin lambda * Real.cos latSSP * Real.cos phiE) with
    | none => (none, none)
    | some latPPrime =>
      let latP := Real.pi / 2 - latPPrime
      match (divF (Real.cos lambda - Real.sin latSSP * Real.sin latP)
          (Real.cos latSSP * Real.cos latP)).bind acosF with
      | none => (some latP, none)
      | some deltaL =>
        (some latP,
         some (if clock < Real.pi then lonSSP + deltaL else lonSSP - deltaL))

/-- The spec's closed-form chain, step 1: `sinRho = r / (r + H)`. -/
def specSinRho (r H : ℝ) : ℝ := r / (r + H)

/-- The spec's closed-form chain, step 2: `epsilon = arccos(sin cone / sinRho)`
(total `Real.arccos`; the spec-side chain presumes the argument in range). -/
def specEpsilon (cone r H : ℝ) : ℝ :=
  Real.arccos (Real.sin cone / specSinRho r H)

/-- The spec's closed-form chain, step 3: `lambda = π/2 - cone - epsilon`. -/
def specLambda (cone r H : ℝ) : ℝ :=
  Real.pi / 2 - cone - specEpsilon cone r H

/-- The argument of the `latPPrime` arccos in the spec chain:
`cos lambda * sin latSSP + sin lambda * cos latSSP * cos phiE` with
`phiE = -clock`. -/
def specLatArg (clock cone latSSP r H : ℝ) : ℝ :=
  Real.cos (specLambda cone r H) * Real.sin latSSP +
    Real.sin (specLambda cone r H) * Real.cos latSSP * Real.cos (-clock)

/-- The spec's closed-form chain, step 5: `latP = π/2 - arccos(latArg)`. -/
def specLatP (clock cone latSSP r H : ℝ) : ℝ :=
  Real.pi / 2 - Real.arccos (specLatArg clock cone latSSP r H)

/-- The spec's closed-form chain, step 6:
`deltaL = arccos((cos lambda - sin latSSP * sin latP)/(cos latSSP * cos latP))`. -/
def specDeltaL (clock cone latSSP r H : ℝ) : ℝ :=
  Real.arccos ((Real.cos (specLambda cone r H) -
      Real.sin latSSP * Real.sin (specLatP clock cone latSSP r H)) /
    (Real.cos latSSP * Real.cos (specLatP clock cone latSSP r H)))

/-- The spec's closed-form chain, step 7: hemisphere tie-break for `lonP`. -/
def specLonP (clock cone latSSP lonSSP r H : ℝ) : ℝ :=
  if clock < Real.pi then lonSSP + specDeltaL clock cone latSSP r H
  else lonSSP - specDeltaL clock cone latSSP r H

/-- The earth-central (great-circle) angle between two `(lat, lon)` points
on the unit sphere, via the spherical law of cosines. -/
def centralAngle (p q : ℝ × ℝ) : ℝ :=
  Real.arccos (Real.sin p.1 * Real.sin q.1 +
    Real.cos p.1 * Real.cos q.1 * Real.cos (p.2 - q.2))

/-- Dot product of two 3-vectors (GMAT `Rvector3` operator `*`). -/
def dot3 (a b : ℝ × ℝ × ℝ) : ℝ :=
  a.1 * b.1 + a.2.1 * b.2.1 + a.2.2 * b.2.2

/-- Cross product of two 3-vectors (GMAT `Cross`). -/
def cross3 (a b : ℝ × ℝ × ℝ) : ℝ × ℝ × ℝ :=
  (a.2.1 * b.2.2 - a.2.2 * b.2.1,
   a.2.2 * b.1 - a.1 * b.2.2,
   a.1 * b.2.1 - a.2.1 * b.1)

/-- Euclidean magnitude of a 3-vector (GMAT `GetMagnitude`). -/
def norm3 (v : ℝ × ℝ × ℝ) : ℝ := Real.sqrt (dot3 v v)

/-- Modelled from the spec: GMAT `Rvector3::Normalize` is not under `src/`.
The spec (§4.2) requires that access-frame construction "must not divide by
zero (guard the normalization)", so normalization of a zero vector is the
error outcome `none`; otherwise the vector is scaled by its magnitude. -/
def normalizeF (v : ℝ × ℝ × ℝ) : Option (ℝ × ℝ × ℝ) :=
  if norm3 v = 0 then none
  else some (v.1 / norm3 v, v.2.1 / norm3 v, v.2.2 / norm3 v)

/-- Modelled from the spec: the four-quadrant arctangent used by the
longitude part of the Cartesian-to-spherical conversion (§4.1), which is an
external frame-conversion utility not under `src/`. -/
def atanTwo (y x : ℝ) : ℝ :=
  if 0 < x then Real.arctan (y / x)
  else if x < 0 then
    (if 0 ≤ y then Real.arctan (y / x) + Real.pi
     else Real.arctan (y / x) - Real.pi)
  else if 0 < y then Real.pi / 2
  else if y < 0 then -(Real.pi / 2)
  else 0

/-- Modelled from the spec: `BodyFixedStateConverterUtil::CartesianToSpherical`
is not under `src/` (frame-conversion utilities are external collaborators,
spec §1/§4.1).  Modelled as the standard geocentric spherical conversion the
spec describes: latitude `arcsin(z/‖v‖)`, longitude `atan2(y, x)`, height
`‖v‖ − radius`.  The flattening argument (always `1` at the call sites) is
dropped: the reference body is a sphere. -/
def cartesianToSpherical (v : ℝ × ℝ × ℝ) (bigR : ℝ) : ℝ × ℝ × ℝ :=
  (Real.arcsin (v.2.2 / norm3 v), atanTwo v.2.1 v.1, norm3 v - bigR)

/-- Modelled from the spec: `Earth::FixedToTopocentric` is not under `src/`.
The spec (§4.2) only requires the local-topocentric frame whose third axis is
the local vertical; modelled as the standard east-north-up rotation of a
body-fixed vector at the given geocentric latitude/longitude. -/
def fixedToTopocentric (v : ℝ × ℝ × ℝ) (lat lon : ℝ) : ℝ × ℝ × ℝ :=
  (-Real.sin lon * v.1 + Real.cos lon * v.2.1,
   -Real.sin lat * Real.cos lon * v.1 - Real.sin lat * Real.sin lon * v.2.1 +
     Real.cos lat * v.2.2,
   Real.cos lat * Real.cos lon * v.1 + Real.cos lat * Real.sin lon * v.2.1 +
     Real.sin lat * v.2.2)

/-- Embedding of `DiscreteCoverageChecker::getNadirToSpacecraftAccessMatrix`
(`src/oc/src/DiscreteCoverageChecker.cpp` lines 86-107).  The state is split
into position and velocity; `r` is `centralBody->GetRadius()`.  The source
negates components 0 and 2 of the topocentric velocity, normalizes the full
vector (no projection onto the horizontal), and builds the matrix whose
columns are `xHat = vel_T × zHat`, `vel_T`, `zHat`.  The result is the column
triple; `none` records a division by zero inside `Normalize`. -/
def getNadirToSpacecraftAccessMatrix (pos vel : ℝ × ℝ × ℝ) (r : ℝ) :
    Option ((ℝ × ℝ × ℝ) × (ℝ × ℝ × ℝ) × (ℝ × ℝ × ℝ)) :=
  let sph := cartesianToSpherical pos r
  let velT := fixedToTopocentric vel sph.1 sph.2.1
  let velT2 : ℝ × ℝ × ℝ := (-velT.1, velT.2.1, -velT.2.2)
  (normalizeF velT2).map fun u =>
    let zHat : ℝ × ℝ × ℝ := (0, 0, 1)
    (cross3 u zHat, u, zHat)

/-- A column triple is orthonormal when each column has unit length and the
columns are mutually perpendicular. -/
def isOrthonormal (m : (ℝ × ℝ × ℝ) × (ℝ × ℝ × ℝ) × (ℝ × ℝ × ℝ)) : Prop :=
  dot3 m.1 m.1 = 1 ∧ dot3 m.2.1 m.2.1 = 1 ∧ dot3 m.2.2 m.2.2 = 1 ∧
    dot3 m.1 m.2.1 = 0 ∧ dot3 m.1 m.2.2 = 0 ∧ dot3 m.2.1 m.2.2 = 0

end

/-- The effect of `std::unique` followed by `erase` on an integer list
(`src/orbitpy/oci/orbitpropcov.cpp` line 429): drop adjacent duplicate
elements, keeping the first of each run. -/
def uniqueAdj : List ℤ → List ℤ
  | [] => []
  | [a] => [a]
  | a :: b :: rest =>
    if a = b then uniqueAdj (a :: rest) else a :: uniqueAdj (b :: rest)
termination_by l => l.length

/-- The `sort` + `unique`/`erase` combination applied to the concatenated
yaw-180 point list (`orbitpropcov.cpp` lines 427-429).  `std::sort` produces
the ascending sorted permutation, which over a linear order is unique, so it
is modelled by insertion sort. -/
def sortAndUnique (l : List ℤ) : List ℤ :=
  uniqueAdj (l.insertionSort (· ≤ ·))

/-- Parameters of the propagation loop in `main` (`orbitpropcov.cpp` lines
404-469).  The external collaborators (spec §6) enter as functions of the
current Julian-date offset: `cov` is `covChecker->CheckPointCoverage()` under
the nominal nadir attitude, `covYaw` the same after the yaw-180 rotation, and
`stateAt` is `sat1->GetCartesianState()` after propagating to a date.  `σ` is
the type of Cartesian states, opaque to the loop. -/
structure LoopParams (σ : Type) where
  cov : ℝ → List ℤ
  covYaw : ℝ → List ℤ
  stateAt : ℝ → σ
  yaw180 : Bool
  stepSize : ℝ
  start : ℝ
  numGridPoints : ℕ

/-- The per-tick visible-point list `loopPoints` as computed by the loop body
(`orbitpropcov.cpp` lines 410-430): the nominal coverage result, or, when
`yaw180_flag` is set, the sorted deduplicated concatenation with the yaw-180
coverage result. -/
def loopPointsAt {σ : Type} (P : LoopParams σ) (d : ℝ) : List ℤ :=
  if P.yaw180 then sortAndUnique (P.cov d ++ P.covYaw d) else P.cov d

/-- The access-file row content (`orbitpropcov.cpp` lines 453-455): an array
with `1` in the cells indexed by accessed grid points and `0` elsewhere. -/
def mkAccessRow (numGP : ℕ) (lp : List ℤ) : List ℕ :=
  (List.range numGP).map fun i : ℕ => if (i : ℤ) ∈ lp then 1 else 0

/-- The mutable state threaded through `main`'s while loop: the current
epoch, the step counter `nSteps`, and the rows written so far to the
satellite-states file and to the access file (each row carries the time
label `nSteps * stepSize` that the source prints). -/
structure LoopState (σ : Type) where
  date : ℝ
  nSteps : ℕ
  satRows : List (ℝ × σ)
  accRows : List (ℝ × List ℕ)

/-- One iteration of `main`'s while loop (`orbitpropcov.cpp` lines 407-468):
compute coverage at the current date, advance the date and re-propagate,
write the states row labelled `nSteps * stepSize`, write an access row under
the same label only when the visible set is non-empty, increment `nSteps`. -/
def loopIter {σ : Type} (P : LoopParams σ) (s : LoopState σ) : LoopState σ :=
  let lp := loopPointsAt P s.date
  let newDate := s.date + P.stepSize
  { date := newDate,
    nSteps := s.nSteps + 1,
    satRows := s.satRows ++ [((s.nSteps : ℝ) * P.stepSize, P.stateAt newDate)],
    accRows := s.accRows ++
      (if lp.length > 0 then
        [((s.nSteps : ℝ) * P.stepSize, mkAccessRow P.numGridPoints lp)]
      else []) }

/-- `n` iterations of the propagation loop from the initial state (date at
`startDate`, counters and files empty); the while condition determines how
many iterations run, which the embedding takes as the parameter `n`. -/
def runLoop {σ : Type} (P : LoopParams σ) : ℕ → LoopState σ
  | 0 => ⟨P.start, 0, [], []⟩
  | n + 1 => loopIter P (runLoop P n)

/-- Concrete loop parameters exercising the yaw-180 branch. -/
def wParamsYaw : LoopParams ℕ :=
  ⟨fun _ => [3, 1, 3], fun _ => [2], fun _ => 0, true, 1, 0, 4⟩

/-- Concrete loop parameters with one visible point at every step. -/
def wParamsAcc : LoopParams ℕ :=
  ⟨fun _ => [0], fun _ => [], fun _ => 0, false, 1, 0, 1⟩

/-- Concrete loop parameters for the states-file row check. -/
def wParamsSat : LoopParams ℕ :=
  ⟨fun _ => [], fun _ => [], fun _ => 0, false, 1, 0, 1⟩

/-- Algebraic core of the spherical-triangle bound: with `a,b` and `p,q0` on
the unit circle and `|c| ≤ 1`, the `deltaL` numerator squared is dominated by
`q0 ^ 2` times the complement of the `latPPrime` argument squared. -/
theorem keyIneq (a b p q0 c : ℝ) (hab : a ^ 2 + b ^ 2 = 1)
    (hpq : p ^ 2 + q0 ^ 2 = 1) (hc : c ^ 2 ≤ 1) :
    (a - p * (a * p + b * q0 * c)) ^ 2 ≤
      q0 ^ 2 * (1 - (a * p + b * q0 * c) ^ 2) := by
  have hnum : a - p * (a * p + b * q0 * c) = q0 * (a * q0 - b * p * c) := by
    linear_combination (-a) * hpq
  have hkey : 1 - (a * p + b * q0 * c) ^ 2 - (a * q0 - b * p * c) ^ 2 =
      b ^ 2 * (1 - c ^ 2) := by
    linear_combination (-(a ^ 2 + b ^ 2 * c ^ 2)) * hpq - hab
  have hb2 : 0 ≤ b ^ 2 * (1 - c ^ 2) :=
    mul_nonneg (sq_nonneg b) (by linarith)
  have h1 : (a * q0 - b * p * c) ^ 2 ≤ 1 - (a * p + b * q0 * c) ^ 2 := by
    linarith
  calc (a - p * (a * p + b * q0 * c)) ^ 2
      = q0 ^ 2 * (a * q0 - b * p * c) ^ 2 := by rw [hnum]; ring
    _ ≤ q0 ^ 2 * (1 - (a * p + b * q0 * c) ^ 2) :=
        mul_le_mul_of_nonneg_left h1 (sq_nonneg q0)

set_option maxHeartbeats 1000000 in
/-- Under the guard hypotheses (argument of the first arccos in range,
non-polar sub-satellite latitude, intersection latitude strictly non-polar),
every fallible step of `projectionAlg` succeeds and the code computes exactly
the spec's closed-form chain. -/
theorem projectionAlg_eq_spec (clock cone latSSP lonSSP r H : ℝ)
    (hr : 0 < r) (hH : 0 ≤ H) (hc0 : 0 ≤ cone) (hcpi : cone ≤ Real.pi)
    (hhor : Real.sin cone ≤ specSinRho r H)
    (hlat : |latSSP| < Real.pi / 2)
    (hs : |specLatArg clock cone latSSP r H| < 1) :
    projectionAlg clock cone (latSSP, lonSSP, H) r =
      (some (specLatP clock cone latSSP r H),
       some (specLonP clock cone latSSP lonSSP r H)) := by
  have hrH : 0 < r + H := by linarith
  have hrho_pos : 0 < specSinRho r H := div_pos hr hrH
  have hrho_ne : (r : ℝ) / (r + H) ≠ 0 := ne_of_gt hrho_pos
  have hsin_nonneg : 0 ≤ Real.sin cone := Real.sin_nonneg_of_nonneg_of_le_pi hc0 hcpi
  have h1 : divF (Real.sin cone) (r / (r + H)) =
      some (Real.sin cone / specSinRho r H) := by
    rw [divF, if_neg hrho_ne]; rfl
  have harg1 : |Real.sin cone / specSinRho r H| ≤ 1 := by
    rw [abs_of_nonneg (div_nonneg hsin_nonneg hrho_pos.le)]
    exact (div_le_one hrho_pos).2 hhor
  have h2 : acosF (Real.sin cone / specSinRho r H) =
      some (specEpsilon cone r H) := by
    rw [acosF, if_pos harg1]; rfl
  set s := specLatArg clock cone latSSP r H with hs_def
  have hs_le : |s| ≤ 1 := hs.le
  have hs_pair := abs_le.1 hs_le
  have hs_lt := abs_lt.1 hs
  have hs_sq_lt : s ^ 2 < 1 := by nlinarith [hs_lt.1, hs_lt.2]
  have hs_unfold : s = Real.cos (specLambda cone r H) * Real.sin latSSP +
      Real.sin (specLambda cone r H) * Real.cos latSSP * Real.cos (-clock) := by
    rw [hs_def]; rfl
  have h3 : acosF (Real.cos (Real.pi / 2 - cone - specEpsilon cone r H) *
      Real.sin latSSP + Real.sin (Real.pi / 2 - cone - specEpsilon cone r H) *
      Real.cos latSSP * Real.cos (-clock)) = some (Real.arccos s) := by
    show acosF s = some (Real.arccos s)
    rw [acosF, if_pos hs_le]
  have hlat' := abs_lt.1 hlat
  have hq0 : 0 < Real.cos latSSP :=
    Real.cos_pos_of_mem_Ioo ⟨by linarith [hlat'.1], hlat'.2⟩
  have hsin_latP : Real.sin (Real.pi / 2 - Real.arccos s) = s := by
    rw [Real.sin_pi_div_two_sub]
    exact Real.cos_arccos hs_pair.1 hs_pair.2
  have hcos_latP : Real.cos (Real.pi / 2 - Real.arccos s) =
      Real.sqrt (1 - s ^ 2) := by
    rw [Real.cos_pi_div_two_sub, Real.sin_arccos]
  have hsqrt_pos : 0 < Real.sqrt (1 - s ^ 2) :=
    Real.sqrt_pos.2 (by linarith)
  have hden_pos : 0 < Real.cos latSSP * Real.cos (Real.pi / 2 - Real.arccos s) := by
    rw [hcos_latP]; exact mul_pos hq0 hsqrt_pos
  have e1 : Real.sin (specLatP clock cone latSSP r H) = s := hsin_latP
  have e2 : Real.cos (specLatP clock cone latSSP r H) = Real.sqrt (1 - s ^ 2) :=
    hcos_latP
  have h4 : divF (Real.cos (Real.pi / 2 - cone - specEpsilon cone r H) -
        Real.sin latSSP * Real.sin (Real.pi / 2 - Real.arccos s))
      (Real.cos latSSP * Real.cos (Real.pi / 2 - Real.arccos s)) =
      some ((Real.cos (specLambda cone r H) - Real.sin latSSP *
          Real.sin (specLatP clock cone latSSP r H)) /
        (Real.cos latSSP * Real.cos (specLatP clock cone latSSP r H))) := by
    rw [divF, if_neg (ne_of_gt hden_pos)]
    rfl
  have hnum_sq : (Real.cos (specLambda cone r H) - Real.sin latSSP *
      Real.sin (specLatP clock cone latSSP r H)) ^ 2 ≤
      (Real.cos latSSP * Real.cos (specLatP clock cone latSSP r H)) ^ 2 := by
    rw [e1, e2, mul_pow, Real.sq_sqrt (by linarith : (0:ℝ) ≤ 1 - s ^ 2),
      hs_unfold]
    exact keyIneq (Real.cos (specLambda cone r H)) (Real.sin (specLambda cone r H))
      (Real.sin latSSP) (Real.cos latSSP) (Real.cos (-clock))
      (Real.cos_sq_add_sin_sq _) (Real.sin_sq_add_cos_sq _)
      (by nlinarith [Real.neg_one_le_cos (-clock), Real.cos_le_one (-clock)])
  have hden_pos' : 0 < Real.cos latSSP * Real.cos (specLatP clock cone latSSP r H) := by
    rw [e2]; exact mul_pos hq0 hsqrt_pos
  have habs_le : |(Real.cos (specLambda cone r H) - Real.sin latSSP *
      Real.sin (specLatP clock cone latSSP r H)) /
      (Real.cos latSSP * Real.cos (specLatP clock cone latSSP r H))| ≤ 1 := by
    rw [abs_div, abs_of_pos hden_pos', div_le_one hden_pos']
    have hsq := Real.sqrt_le_sqrt hnum_sq
    rwa [Real.sqrt_sq_eq_abs, Real.sqrt_sq hden_pos'.le] at hsq
  have h5 : acosF ((Real.cos (specLambda cone r H) - Real.sin latSSP *
      Real.sin (specLatP clock cone latSSP r H)) /
      (Real.cos latSSP * Real.cos (specLatP clock cone latSSP r H))) =
      some (specDeltaL clock cone latSSP r H) := by
    rw [acosF, if_pos habs_le]; rfl
  simp only [projectionAlg, h1, Option.some_bind, h2, h3, h4, h5]
  simp only [specLatP, specLonP, ← hs_def]

/-- The sine of the spec chain's intersection latitude is the `latPPrime`
arccos argument. -/
theorem spec_sin_latP (clock cone latSSP r H : ℝ)
    (hs_le : |specLatArg clock cone latSSP r H| ≤ 1) :
    Real.sin (specLatP clock cone latSSP r H) =
      specLatArg clock cone latSSP r H := by
  simp only [specLatP]
  rw [Real.sin_pi_div_two_sub]
  exact Real.cos_arccos (abs_le.1 hs_le).1 (abs_le.1 hs_le).2

/-- The cosine of the spec chain's intersection latitude. -/
theorem spec_cos_latP (clock cone latSSP r H : ℝ) :
    Real.cos (specLatP clock cone latSSP r H) =
      Real.sqrt (1 - specLatArg clock cone latSSP r H ^ 2) := by
  simp only [specLatP]
  rw [Real.cos_pi_div_two_sub, Real.sin_arccos]

/-- The `deltaL` denominator is positive away from the polar cases. -/
theorem spec_den_pos (clock cone latSSP r H : ℝ)
    (hlat : |latSSP| < Real.pi / 2)
    (hs : |specLatArg clock cone latSSP r H| < 1) :
    0 < Real.cos latSSP * Real.cos (specLatP clock cone latSSP r H) := by
  have hlat' := abs_lt.1 hlat
  have hq0 : 0 < Real.cos latSSP :=
    Real.cos_pos_of_mem_Ioo ⟨by linarith [hlat'.1], hlat'.2⟩
  have hs_lt := abs_lt.1 hs
  have hsq : specLatArg clock cone latSSP r H ^ 2 < 1 := by
    nlinarith [hs_lt.1, hs_lt.2]
  rw [spec_cos_latP]
  exact mul_pos hq0 (Real.sqrt_pos.2 (by linarith))

/-- The `deltaL` numerator squared is dominated by the denominator squared. -/
theorem spec_num_sq_le (clock cone latSSP r H : ℝ)
    (hs_le : |specLatArg clock cone latSSP r H| ≤ 1) :
    (Real.cos (specLambda cone r H) -
        Real.sin latSSP * Real.sin (specLatP clock cone latSSP r H)) ^ 2 ≤
      (Real.cos latSSP * Real.cos (specLatP clock cone latSSP r H)) ^ 2 := by
  have hs_pair := abs_le.1 hs_le
  have hsq : (0:ℝ) ≤ 1 - specLatArg clock cone latSSP r H ^ 2 := by
    nlinarith [hs_pair.1, hs_pair.2]
  rw [spec_sin_latP clock cone latSSP r H hs_le, spec_cos_latP, mul_pow,
    Real.sq_sqrt hsq]
  have hs_unfold : specLatArg clock cone latSSP r H =
      Real.cos (specLambda cone r H) * Real.sin latSSP +
        Real.sin (specLambda cone r H) * Real.cos latSSP * Real.cos (-clock) := rfl
  rw [hs_unfold]
  exact keyIneq (Real.cos (specLambda cone r H)) (Real.sin (specLambda cone r H))
    (Real.sin latSSP) (Real.cos latSSP) (Real.cos (-clock))
    (Real.cos_sq_add_sin_sq _) (Real.sin_sq_add_cos_sq _)
    (by nlinarith [Real.neg_one_le_cos (-clock), Real.cos_le_one (-clock)])

/-- The `deltaL` arccos argument lies in `[-1, 1]` away from the poles. -/
theorem spec_quot_abs_le (clock cone latSSP r H : ℝ)
    (hlat : |latSSP| < Real.pi / 2)
    (hs : |specLatArg clock cone latSSP r H| < 1) :
    |(Real.cos (specLambda cone r H) -
        Real.sin latSSP * Real.sin (specLatP clock cone latSSP r H)) /
      (Real.cos latSSP * Real.cos (specLatP clock cone latSSP r H))| ≤ 1 := by
  have hden := spec_den_pos clock cone latSSP r H hlat hs
  rw [abs_div, abs_of_pos hden, div_le_one hden]
  have hsq := Real.sqrt_le_sqrt (spec_num_sq_le clock cone latSSP r H hs.le)
  rwa [Real.sqrt_sq_eq_abs, Real.sqrt_sq hden.le] at hsq

/-- Cosine of the spec chain's `deltaL`. -/
theorem spec_cos_deltaL (clock cone latSSP r H : ℝ)
    (hlat : |latSSP| < Real.pi / 2)
    (hs : |specLatArg clock cone latSSP r H| < 1) :
    Real.cos (specDeltaL clock cone latSSP r H) =
      (Real.cos (specLambda cone r H) -
        Real.sin latSSP * Real.sin (specLatP clock cone latSSP r H)) /
      (Real.cos latSSP * Real.cos (specLatP clock cone latSSP r H)) := by
  have hq := abs_le.1 (spec_quot_abs_le clock cone latSSP r H hlat hs)
  simp only [specDeltaL]
  exact Real.cos_arccos hq.1 hq.2

/-- Spherical law of cosines: the inner product between the projected point
and the sub-satellite point recovers `cos lambda` exactly. -/
theorem spec_inner_eq (clock cone latSSP r H : ℝ)
    (hlat : |latSSP| < Real.pi / 2)
    (hs : |specLatArg clock cone latSSP r H| < 1) :
    Real.sin (specLatP clock cone latSSP r H) * Real.sin latSSP +
      Real.cos (specLatP clock cone latSSP r H) * Real.cos latSSP *
        Real.cos (specDeltaL clock cone latSSP r H) =
      Real.cos (specLambda cone r H) := by
  have hlat' := abs_lt.1 hlat
  have hq0 : 0 < Real.cos latSSP :=
    Real.cos_pos_of_mem_Ioo ⟨by linarith [hlat'.1], hlat'.2⟩
  have hs_lt := abs_lt.1 hs
  have hsq : specLatArg clock cone latSSP r H ^ 2 < 1 := by
    nlinarith [hs_lt.1, hs_lt.2]
  have hlatP : 0 < Real.cos (specLatP clock cone latSSP r H) := by
    rw [spec_cos_latP]
    exact Real.sqrt_pos.2 (by linarith)
  rw [spec_cos_deltaL clock cone latSSP r H hlat hs,
    spec_sin_latP clock cone latSSP r H hs.le]
  field_simp
  ring

/-- The great-circle angle between the spec chain's projected point and the
sub-satellite point is exactly `lambda` when `lambda ∈ [0, π]`. -/
theorem centralAngle_spec (clock cone latSSP lonSSP r H : ℝ)
    (hlat : |latSSP| < Real.pi / 2)
    (hs : |specLatArg clock cone latSSP r H| < 1)
    (hl0 : 0 ≤ specLambda cone r H) (hlpi : specLambda cone r H ≤ Real.pi) :
    centralAngle (specLatP clock cone latSSP r H,
        specLonP clock cone latSSP lonSSP r H) (latSSP, lonSSP) =
      specLambda cone r H := by
  have hcosD : Real.cos (specLonP clock cone latSSP lonSSP r H - lonSSP) =
      Real.cos (specDeltaL clock cone latSSP r H) := by
    simp only [specLonP]
    split_ifs
    · rw [show lonSSP + specDeltaL clock cone latSSP r H - lonSSP =
        specDeltaL clock cone latSSP r H by ring]
    · rw [show lonSSP - specDeltaL clock cone latSSP r H - lonSSP =
        -specDeltaL clock cone latSSP r H by ring, Real.cos_neg]
  simp only [centralAngle]
  rw [hcosD, spec_inner_eq clock cone latSSP r H hlat hs]
  exact Real.arccos_cos hl0 hlpi

/-- The horizon ratio `r / (r + H)` is at most one for nonnegative height. -/
theorem sinRho_le_one (r H : ℝ) (hr : 0 < r) (hH : 0 ≤ H) :
    specSinRho r H ≤ 1 := by
  rw [specSinRho, div_le_one (by linarith)]
  linarith

/-- The horizon ratio is strictly below one for positive height. -/
theorem sinRho_lt_one (r H : ℝ) (hr : 0 < r) (hH : 0 < H) :
    specSinRho r H < 1 := by
  rw [specSinRho, div_lt_one (by linarith)]
  linarith

/-- The horizon ratio is positive. -/
theorem sinRho_pos (r H : ℝ) (hr : 0 < r) (hH : 0 ≤ H) :
    0 < specSinRho r H := div_pos hr (by linarith)

/-- The earth-central angle `lambda` is nonnegative: `arccos` is antitone
and `sin cone / sinRho ≥ sin cone`, so `epsilon ≤ π/2 − cone`. -/
theorem specLambda_nonneg (cone r H : ℝ) (hr : 0 < r) (hH : 0 ≤ H)
    (hc0 : 0 ≤ cone) (hc2 : cone ≤ Real.pi / 2) :
    0 ≤ specLambda cone r H := by
  have hρ0 := sinRho_pos r H hr hH
  have hρ1 := sinRho_le_one r H hr hH
  have hsin0 : 0 ≤ Real.sin cone :=
    Real.sin_nonneg_of_nonneg_of_le_pi hc0 (by linarith [Real.pi_pos])
  have hle : Real.sin cone ≤ Real.sin cone / specSinRho r H := by
    rw [le_div_iff₀ hρ0]
    exact mul_le_of_le_one_right hsin0 hρ1
  have hmono : Real.arccos (Real.sin cone / specSinRho r H) ≤
      Real.arccos (Real.sin cone) := by
    rw [Real.arccos_eq_pi_div_two_sub_arcsin, Real.arccos_eq_pi_div_two_sub_arcsin]
    have := Real.monotone_arcsin hle
    linarith
  have hacs : Real.arccos (Real.sin cone) = Real.pi / 2 - cone := by
    rw [Real.arccos_eq_pi_div_two_sub_arcsin, Real.arcsin_sin (by linarith) hc2]
  simp only [specLambda, specEpsilon]
  linarith [hmono, hacs.symm ▸ hmono]

/-- The earth-central angle `lambda` never exceeds `π/2`. -/
theorem specLambda_le (cone r H : ℝ) (hc0 : 0 ≤ cone) :
    specLambda cone r H ≤ Real.pi / 2 := by
  simp only [specLambda, specEpsilon]
  linarith [Real.arccos_nonneg (Real.sin cone / specSinRho r H)]

/-- The earth-central angle `c ↦ π/2 − c − arccos(sin c / ρ)` is strictly
increasing on `[0, arcsin ρ]` when `0 < ρ < 1`: its derivative is
`cos c / √(ρ² − sin² c) − 1 > 0` on the interior. -/
theorem lambdaFun_strictMonoOn (ρ : ℝ) (hρ0 : 0 < ρ) (hρ1 : ρ < 1) :
    StrictMonoOn (fun c => Real.pi / 2 - c - Real.arccos (Real.sin c / ρ))
      (Set.Icc 0 (Real.arcsin ρ)) := by
  have harc2 : Real.arcsin ρ ≤ Real.pi / 2 := Real.arcsin_le_pi_div_two ρ
  apply strictMonoOn_of_deriv_pos (convex_Icc _ _)
  · exact ((continuous_const.sub continuous_id).sub
      (Real.continuous_arccos.comp (Real.continuous_sin.div_const ρ))).continuousOn
  · intro x hx
    rw [interior_Icc] at hx
    obtain ⟨hx0, hx1⟩ := hx
    have hxlt : x < Real.pi / 2 := lt_of_lt_of_le hx1 harc2
    have hsin_pos : 0 < Real.sin x :=
      Real.sin_pos_of_pos_of_lt_pi hx0 (by linarith [Real.pi_pos])
    have hsin_lt : Real.sin x < ρ := by
      have h1 : Real.sin x < Real.sin (Real.arcsin ρ) := by
        apply Real.strictMonoOn_sin ⟨by linarith, hxlt.le⟩
          ⟨Real.neg_pi_div_two_le_arcsin ρ, harc2⟩ hx1
      rwa [Real.sin_arcsin (by linarith) hρ1.le] at h1
    have hu_pos : 0 < Real.sin x / ρ := div_pos hsin_pos hρ0
    have hu_lt : Real.sin x / ρ < 1 := (div_lt_one hρ0).2 hsin_lt
    have hu_ne1 : Real.sin x / ρ ≠ 1 := ne_of_lt hu_lt
    have hu_nen1 : Real.sin x / ρ ≠ -1 := by linarith
    have hcos_pos : 0 < Real.cos x :=
      Real.cos_pos_of_mem_Ioo ⟨by linarith [Real.pi_pos], hxlt⟩
    have h_inner : HasDerivAt (fun c => Real.sin c / ρ) (Real.cos x / ρ) x :=
      (Real.hasDerivAt_sin x).div_const ρ
    have h_arccos := (Real.hasDerivAt_arccos hu_nen1 hu_ne1).comp x h_inner
    have h_id : HasDerivAt (fun c : ℝ => Real.pi / 2 - c) (-1) x := by
      simpa using (hasDerivAt_id x).const_sub (Real.pi / 2)
    have h_f : HasDerivAt (fun c => Real.pi / 2 - c - Real.arccos (Real.sin c / ρ))
        (-1 - -(1 / Real.sqrt (1 - (Real.sin x / ρ) ^ 2)) * (Real.cos x / ρ)) x :=
      h_id.sub h_arccos
    rw [h_f.deriv]
    have hsq_pos : 0 < 1 - (Real.sin x / ρ) ^ 2 := by nlinarith [hu_pos, hu_lt]
    have hsqrt_pos : 0 < Real.sqrt (1 - (Real.sin x / ρ) ^ 2) :=
      Real.sqrt_pos.2 hsq_pos
    have hkey : ρ * Real.sqrt (1 - (Real.sin x / ρ) ^ 2) < Real.cos x := by
      have hsq_eq : (ρ * Real.sqrt (1 - (Real.sin x / ρ) ^ 2)) ^ 2 =
          ρ ^ 2 - Real.sin x ^ 2 := by
        rw [mul_pow, Real.sq_sqrt hsq_pos.le]
        field_simp
      have hcos_sq : (ρ * Real.sqrt (1 - (Real.sin x / ρ) ^ 2)) ^ 2 <
          Real.cos x ^ 2 := by
        rw [hsq_eq]
        nlinarith [Real.sin_sq_add_cos_sq x, hρ1, hρ0]
      exact lt_of_pow_lt_pow_left₀ 2 hcos_pos.le hcos_sq
    have hgt1 : 1 < 1 / Real.sqrt (1 - (Real.sin x / ρ) ^ 2) * (Real.cos x / ρ) := by
      rw [div_mul_div_comm, one_mul]
      rw [lt_div_iff₀ (mul_pos hsqrt_pos hρ0)]
      calc 1 * (Real.sqrt (1 - (Real.sin x / ρ) ^ 2) * ρ) =
          ρ * Real.sqrt (1 - (Real.sin x / ρ) ^ 2) := by ring
        _ < Real.cos x := hkey
    linarith

/-- Strict monotonicity of the spec chain's `lambda` in the cone angle on
`[0, arcsin sinRho]`, for positive height. -/
theorem specLambda_lt_specLambda (r H c1 c2 : ℝ) (hr : 0 < r) (hH : 0 < H)
    (h10 : 0 ≤ c1) (h12 : c1 < c2) (h2 : c2 ≤ Real.arcsin (specSinRho r H)) :
    specLambda c1 r H < specLambda c2 r H := by
  have hρ0 := sinRho_pos r H hr hH.le
  have hρ1 := sinRho_lt_one r H hr hH
  have h := lambdaFun_strictMonoOn (specSinRho r H) hρ0 hρ1
    (Set.mem_Icc.2 ⟨h10, by linarith⟩) (Set.mem_Icc.2 ⟨by linarith, h2⟩) h12
  simpa only [specLambda, specEpsilon] using h

/-- Beyond the horizon limit the very first `acos` of `projectionAlg` sees an
argument above one and the whole result is the NaN pair. -/
theorem projectionAlg_no_intersection (clock cone latSSP lonSSP r H : ℝ)
    (hr : 0 < r) (hH : 0 ≤ H) (hgt : specSinRho r H < Real.sin cone) :
    projectionAlg clock cone (latSSP, lonSSP, H) r = (none, none) := by
  have hρ0 := sinRho_pos r H hr hH
  have hρne : (r : ℝ) / (r + H) ≠ 0 := ne_of_gt hρ0
  have h1 : divF (Real.sin cone) (r / (r + H)) =
      some (Real.sin cone / specSinRho r H) := by
    rw [divF, if_neg hρne]; rfl
  have h2 : acosF (Real.sin cone / specSinRho r H) = none := by
    rw [acosF, if_neg]
    rw [not_le, lt_abs]
    exact Or.inl ((one_lt_div hρ0).2 hgt)
  simp only [projectionAlg, h1, Option.some_bind, h2]

/-- The sine of a strictly non-polar latitude lies strictly inside `(-1, 1)`. -/
theorem sin_mem_open_interval (latSSP : ℝ) (hlat : |latSSP| < Real.pi / 2) :
    |Real.sin latSSP| < 1 := by
  have hlat' := abs_lt.1 hlat
  have hmem1 : latSSP ∈ Set.Icc (-(Real.pi / 2)) (Real.pi / 2) :=
    ⟨by linarith [hlat'.1], by linarith [hlat'.2]⟩
  have hmem2 : Real.pi / 2 ∈ Set.Icc (-(Real.pi / 2)) (Real.pi / 2) :=
    ⟨by linarith [Real.pi_pos], le_refl _⟩
  have hmem3 : -(Real.pi / 2) ∈ Set.Icc (-(Real.pi / 2)) (Real.pi / 2) :=
    ⟨le_refl _, by linarith [Real.pi_pos]⟩
  have hup : Real.sin latSSP < 1 := by
    have := Real.strictMonoOn_sin hmem1 hmem2 hlat'.2
    rwa [Real.sin_pi_div_two] at this
  have hlo : -1 < Real.sin latSSP := by
    have := Real.strictMonoOn_sin hmem3 hmem1 (by linarith [hlat'.1])
    rwa [Real.sin_neg, Real.sin_pi_div_two] at this
  exact abs_lt.2 ⟨hlo, hup⟩

/-- With `cone = 0` the chain collapses: `epsilon = π/2`, `lambda = 0`,
`latP = latSSP`, `deltaL = 0`, and `projectionAlg` returns the sub-satellite
point exactly. -/
theorem projectionAlg_cone_zero (clock latSSP lonSSP r H : ℝ)
    (hr : 0 < r) (hH : 0 ≤ H) (hlat : |latSSP| < Real.pi / 2) :
    projectionAlg clock 0 (latSSP, lonSSP, H) r = (some latSSP, some lonSSP) := by
  have hρ0 := sinRho_pos r H hr hH
  have hlam : specLambda 0 r H = 0 := by
    simp only [specLambda, specEpsilon, Real.sin_zero, zero_div, Real.arccos_zero]
    ring
  have hsarg : specLatArg clock 0 latSSP r H = Real.sin latSSP := by
    simp only [specLatArg, hlam, Real.cos_zero, Real.sin_zero]
    ring
  have hlat' := abs_lt.1 hlat
  have hs : |specLatArg clock 0 latSSP r H| < 1 := by
    rw [hsarg]; exact sin_mem_open_interval latSSP hlat
  have h := projectionAlg_eq_spec clock 0 latSSP lonSSP r H hr hH le_rfl
    (le_of_lt Real.pi_pos) (by rw [Real.sin_zero]; exact hρ0.le) hlat hs
  rw [h]
  have hlatP : specLatP clock 0 latSSP r H = latSSP := by
    simp only [specLatP, hsarg]
    rw [Real.arccos_eq_pi_div_two_sub_arcsin,
      Real.arcsin_sin (by linarith [hlat'.1]) (by linarith [hlat'.2])]
    ring
  have hq0 : 0 < Real.cos latSSP :=
    Real.cos_pos_of_mem_Ioo ⟨by linarith [hlat'.1], hlat'.2⟩
  have hdel : specDeltaL clock 0 latSSP r H = 0 := by
    simp only [specDeltaL, hlam, hlatP, Real.cos_zero]
    have hpyth : 1 - Real.sin latSSP * Real.sin latSSP =
        Real.cos latSSP * Real.cos latSSP := by
      nlinarith [Real.sin_sq_add_cos_sq latSSP]
    rw [hpyth, div_self (by positivity), Real.arccos_one]
  have hlonP : specLonP clock 0 latSSP lonSSP r H = lonSSP := by
    simp only [specLonP, hdel]
    split_ifs <;> ring
  rw [hlatP, hlonP]

/-- Evaluation of `projectionAlg` at the pole-collapse heading: sub-satellite
latitude `π/3`, height `√3 − 1` over a unit sphere (so `sinRho = 1/√3`),
clock `0`, cone `π/6`.  The heading satisfies `sin cone ≤ sinRho`, yet the
intersection latitude is exactly `π/2`, the `deltaL` division is `0/0`, and
the longitude comes back NaN. -/
theorem projectionAlg_degenerate_eval :
    (projectionAlg 0 (Real.pi / 6) (Real.pi / 3, 0, Real.sqrt 3 - 1) 1).2 =
      none := by
  have h3pos : (0:ℝ) < Real.sqrt 3 := Real.sqrt_pos.2 (by norm_num)
  have hsq3 : Real.sqrt 3 ^ 2 = 3 := Real.sq_sqrt (by norm_num)
  have h3lt : Real.sqrt 3 < 2 := by nlinarith
  have h3gt : 1 < Real.sqrt 3 := by nlinarith
  have hbase : (1:ℝ) + (Real.sqrt 3 - 1) = Real.sqrt 3 := by ring
  have h1 : divF (Real.sin (Real.pi / 6)) ((1:ℝ) / (1 + (Real.sqrt 3 - 1))) =
      some (Real.sqrt 3 / 2) := by
    rw [divF, hbase, if_neg (one_div_ne_zero (ne_of_gt h3pos)),
      Real.sin_pi_div_six]
    congr 1
    rw [div_div_eq_mul_div]
    field_simp
  have habs32 : |Real.sqrt 3 / 2| ≤ 1 := by
    rw [abs_of_nonneg (by positivity)]
    linarith
  have h2 : acosF (Real.sqrt 3 / 2) = some (Real.pi / 6) := by
    rw [acosF, if_pos habs32,
      show Real.sqrt 3 / 2 = Real.cos (Real.pi / 6) from (Real.cos_pi_div_six).symm]
    rw [Real.arccos_cos (by positivity) (by linarith [Real.pi_pos])]
  have hlam : Real.pi / 2 - Real.pi / 6 - Real.pi / 6 = Real.pi / 6 := by ring
  have h3 : acosF (Real.cos (Real.pi / 6) * Real.sin (Real.pi / 3) +
      Real.sin (Real.pi / 6) * Real.cos (Real.pi / 3) * Real.cos (-0)) =
      some 0 := by
    rw [Real.cos_pi_div_six, Real.sin_pi_div_three, Real.sin_pi_div_six,
      Real.cos_pi_div_three, neg_zero, Real.cos_zero]
    rw [show Real.sqrt 3 / 2 * (Real.sqrt 3 / 2) + 1 / 2 * (1 / 2) * 1 = (1:ℝ) by
      nlinarith]
    rw [acosF, if_pos (by norm_num), Real.arccos_one]
  have h4 : divF (Real.cos (Real.pi / 6) - Real.sin (Real.pi / 3) *
      Real.sin (Real.pi / 2)) (Real.cos (Real.pi / 3) * Real.cos (Real.pi / 2)) =
      none := by
    rw [divF, if_pos (by rw [Real.cos_pi_div_two]; ring)]
  simp only [projectionAlg, h1, Option.some_bind, h2, hlam, h3, sub_zero, h4,
    Option.none_bind]

/-- Arcsine of one half. -/
theorem arcsin_one_half : Real.arcsin (1 / 2) = Real.pi / 6 := by
  rw [show (1:ℝ) / 2 = Real.sin (Real.pi / 6) from (Real.sin_pi_div_six).symm]
  exact Real.arcsin_sin (by linarith [Real.pi_pos]) (by linarith [Real.pi_pos])

/-- Holding the clock angle fixed, on `[0, arcsin sinRho]` the great-circle
distance of the projected point from the sub-satellite point grows strictly
with the cone angle (away from the pole-collapse headings). -/
theorem projection_centralAngle_lt (clock c1 c2 latSSP lonSSP r H : ℝ)
    (hr : 0 < r) (hH : 0 < H) (hlat : |latSSP| < Real.pi / 2)
    (hc10 : 0 ≤ c1) (h12 : c1 < c2)
    (hc2top : c2 ≤ Real.arcsin (specSinRho r H))
    (hs1 : |specLatArg clock c1 latSSP r H| < 1)
    (hs2 : |specLatArg clock c2 latSSP r H| < 1) :
    ∃ p1 p2 : ℝ × ℝ,
      projectionAlg clock c1 (latSSP, lonSSP, H) r = (some p1.1, some p1.2) ∧
      projectionAlg clock c2 (latSSP, lonSSP, H) r = (some p2.1, some p2.2) ∧
      centralAngle p1 (latSSP, lonSSP) < centralAngle p2 (latSSP, lonSSP) := by
  have hρ0 := sinRho_pos r H hr hH.le
  have hρ1 := sinRho_lt_one r H hr hH
  have harc2 : Real.arcsin (specSinRho r H) ≤ Real.pi / 2 :=
    Real.arcsin_le_pi_div_two _
  have hc1_le : c1 ≤ Real.pi / 2 := by linarith
  have hc2_le : c2 ≤ Real.pi / 2 := le_trans hc2top harc2
  have hc20 : 0 ≤ c2 := le_trans hc10 h12.le
  have hmemArc : Real.arcsin (specSinRho r H) ∈
      Set.Icc (-(Real.pi / 2)) (Real.pi / 2) :=
    ⟨Real.neg_pi_div_two_le_arcsin _, harc2⟩
  have hsin1 : Real.sin c1 ≤ specSinRho r H := by
    have h := Real.strictMonoOn_sin.monotoneOn
      (Set.mem_Icc.2 ⟨by linarith, hc1_le⟩) hmemArc (by linarith)
    rwa [Real.sin_arcsin (by linarith) hρ1.le] at h
  have hsin2 : Real.sin c2 ≤ specSinRho r H := by
    have h := Real.strictMonoOn_sin.monotoneOn
      (Set.mem_Icc.2 ⟨by linarith, hc2_le⟩) hmemArc hc2top
    rwa [Real.sin_arcsin (by linarith) hρ1.le] at h
  have hpi : Real.pi / 2 ≤ Real.pi := by linarith [Real.pi_pos]
  have hproj1 := projectionAlg_eq_spec clock c1 latSSP lonSSP r H hr hH.le hc10
    (le_trans hc1_le hpi) hsin1 hlat hs1
  have hproj2 := projectionAlg_eq_spec clock c2 latSSP lonSSP r H hr hH.le hc20
    (le_trans hc2_le hpi) hsin2 hlat hs2
  refine ⟨(specLatP clock c1 latSSP r H, specLonP clock c1 latSSP lonSSP r H),
    (specLatP clock c2 latSSP r H, specLonP clock c2 latSSP lonSSP r H),
    hproj1, hproj2, ?_⟩
  have hca1 := centralAngle_spec clock c1 latSSP lonSSP r H hlat hs1
    (specLambda_nonneg c1 r H hr hH.le hc10 hc1_le)
    (le_trans (specLambda_le c1 r H hc10) hpi)
  have hca2 := centralAngle_spec clock c2 latSSP lonSSP r H hlat hs2
    (specLambda_nonneg c2 r H hr hH.le hc20 hc2_le)
    (le_trans (specLambda_le c2 r H hc20) hpi)
  rw [hca1, hca2]
  exact specLambda_lt_specLambda r H c1 c2 hr hH hc10 h12 hc2top

/-- The east-north-up change of basis preserves the dot square of a vector. -/
theorem fixedToTopocentric_dot (v : ℝ × ℝ × ℝ) (lat lon : ℝ) :
    dot3 (fixedToTopocentric v lat lon) (fixedToTopocentric v lat lon) =
      dot3 v v := by
  have hθ := Real.sin_sq_add_cos_sq lon
  have hφ := Real.sin_sq_add_cos_sq lat
  simp only [fixedToTopocentric, dot3]
  linear_combination (v.1 ^ 2 * Real.cos lon ^ 2 + v.2.1 ^ 2 * Real.sin lon ^ 2 +
      v.2.2 ^ 2 + 2 * v.1 * v.2.1 * Real.sin lon * Real.cos lon) * hφ +
    (v.1 ^ 2 + v.2.1 ^ 2) * hθ

/-- A nonzero 3-vector has positive dot square. -/
theorem dot3_self_pos (v : ℝ × ℝ × ℝ) (hv : v ≠ (0, 0, 0)) : 0 < dot3 v v := by
  have hnn : (0:ℝ) ≤ dot3 v v := by
    simp only [dot3]
    nlinarith [sq_nonneg v.1, sq_nonneg v.2.1, sq_nonneg v.2.2]
  rcases eq_or_lt_of_le hnn with h | h
  · exfalso
    apply hv
    have h' := h.symm
    simp only [dot3] at h'
    have h1 : v.1 = 0 := by
      nlinarith [sq_nonneg v.1, sq_nonneg v.2.1, sq_nonneg v.2.2]
    have h2 : v.2.1 = 0 := by
      nlinarith [sq_nonneg v.1, sq_nonneg v.2.1, sq_nonneg v.2.2]
    have h3 : v.2.2 = 0 := by
      nlinarith [sq_nonneg v.1, sq_nonneg v.2.1, sq_nonneg v.2.2]
    rw [Prod.ext_iff, Prod.ext_iff]
    exact ⟨h1, h2, h3⟩
  · exact h

/-- For any nonzero velocity the vector handed to `Normalize` inside
`getNadirToSpacecraftAccessMatrix` has nonzero magnitude (the topocentric
rotation and the component negations preserve it), so the normalization
divides by a nonzero number and the function returns a matrix. -/
theorem getNadir_isSome (pos vel : ℝ × ℝ × ℝ) (r : ℝ) (hv : vel ≠ (0, 0, 0)) :
    (getNadirToSpacecraftAccessMatrix pos vel r).isSome := by
  have hd : 0 < dot3 vel vel := dot3_self_pos vel hv
  set lat := (cartesianToSpherical pos r).1
  set lon := (cartesianToSpherical pos r).2.1
  set velT := fixedToTopocentric vel lat lon with hvelT
  have hdm : dot3 (-velT.1, velT.2.1, -velT.2.2) (-velT.1, velT.2.1, -velT.2.2) =
      dot3 velT velT := by
    simp only [dot3]
    ring
  have hdT : dot3 velT velT = dot3 vel vel := fixedToTopocentric_dot vel lat lon
  have hnorm_pos : 0 < norm3 (-velT.1, velT.2.1, -velT.2.2) := by
    rw [norm3, hdm, hdT]
    exact Real.sqrt_pos.2 hd
  have hne : norm3 (-velT.1, velT.2.1, -velT.2.2) ≠ 0 := ne_of_gt hnorm_pos
  simp only [getNadirToSpacecraftAccessMatrix, normalizeF, if_neg hne,
    Option.map_some', Option.isSome_some]

/-- Evaluation of the spherical conversion at the equatorial test position. -/
theorem cartesianToSpherical_eval_two :
    cartesianToSpherical ((2:ℝ), 0, 0) 1 = (0, 0, 1) := by
  have hd4 : dot3 ((2:ℝ), 0, 0) ((2:ℝ), 0, 0) = 4 := by
    simp only [dot3]; norm_num
  have hn1 : norm3 ((2:ℝ), 0, 0) = 2 := by
    rw [norm3, hd4, show (4:ℝ) = 2 ^ 2 by norm_num,
      Real.sqrt_sq (by norm_num : (0:ℝ) ≤ 2)]
  rw [cartesianToSpherical, hn1, atanTwo]
  norm_num [Real.arcsin_zero, Real.arctan_zero]

/-- Adjacent deduplication only drops elements. -/
theorem uniqueAdj_sublist : ∀ l : List ℤ, (uniqueAdj l).Sublist l := by
  intro l
  induction l using uniqueAdj.induct with
  | case1 => simp [uniqueAdj]
  | case2 a => simp [uniqueAdj]
  | case3 b rest ih =>
    rw [uniqueAdj, if_pos rfl]
    exact ih.trans (List.sublist_cons_self b (b :: rest))
  | case4 a b rest hab ih =>
    rw [uniqueAdj, if_neg hab]
    exact List.cons_sublist_cons.mpr ih

/-- On a `≤`-sorted list, adjacent deduplication yields a `<`-sorted list. -/
theorem uniqueAdj_sorted_lt : ∀ l : List ℤ, l.Sorted (· ≤ ·) →
    (uniqueAdj l).Sorted (· < ·) := by
  intro l
  induction l using uniqueAdj.induct with
  | case1 => intro _; simp [uniqueAdj]
  | case2 a => intro _; simp [uniqueAdj]
  | case3 b rest ih =>
    intro hsort
    rw [uniqueAdj, if_pos rfl]
    exact ih (List.sorted_cons.1 hsort).2
  | case4 a b rest hab ih =>
    intro hsort
    rw [uniqueAdj, if_neg hab]
    rcases List.sorted_cons.1 hsort with ⟨hall, hrest⟩
    apply List.sorted_cons.2
    refine ⟨fun c hc => ?_, ih hrest⟩
    have hcmem : c ∈ b :: rest := (uniqueAdj_sublist (b :: rest)).mem hc
    have hac : a ≤ c := hall c hcmem
    rcases List.mem_cons.1 hcmem with rfl | hcr
    · exact lt_of_le_of_ne hac hab
    · rcases List.sorted_cons.1 hrest with ⟨hall2, _⟩
      have hbc : b ≤ c := hall2 c hcr
      have hb : a ≤ b := hall b (List.mem_cons_self b rest)
      exact lt_of_lt_of_le (lt_of_le_of_ne hb hab) hbc

/-- The sort-then-unique combination produces an ascending duplicate-free
list. -/
theorem sortAndUnique_sorted_nodup (l : List ℤ) :
    (sortAndUnique l).Sorted (· ≤ ·) ∧ (sortAndUnique l).Nodup := by
  have hsorted : (l.insertionSort (· ≤ ·)).Sorted (· ≤ ·) :=
    List.sorted_insertionSort (· ≤ ·) l
  have hlt : (sortAndUnique l).Sorted (· < ·) :=
    uniqueAdj_sorted_lt _ hsorted
  exact ⟨hlt.imp le_of_lt, hlt.nodup⟩

/-- After `n` iterations the loop's date is `start + n * stepSize`. -/
theorem runLoop_date {σ : Type} (P : LoopParams σ) (n : ℕ) :
    (runLoop P n).date = P.start + n * P.stepSize := by
  induction n with
  | zero => simp [runLoop]
  | succ n ih =>
    simp only [runLoop, loopIter, ih]
    push_cast
    ring

/-- After `n` iterations the loop's step counter is `n`. -/
theorem runLoop_nSteps {σ : Type} (P : LoopParams σ) (n : ℕ) :
    (runLoop P n).nSteps = n := by
  induction n with
  | zero => rfl
  | succ n ih => simp only [runLoop, loopIter, ih]

/-- Characterization of the satellite-states file: the row of iteration `k`
carries the label `k * stepSize` but the state propagated to
`start + (k+1) * stepSize`. -/
theorem runLoop_satRows {σ : Type} (P : LoopParams σ) (n : ℕ) :
    (runLoop P n).satRows = (List.range n).map fun k : ℕ =>
      ((k : ℝ) * P.stepSize, P.stateAt (P.start + ((k : ℝ) + 1) * P.stepSize)) := by
  induction n with
  | zero => rfl
  | succ n ih =>
    have harg : P.start + (n : ℝ) * P.stepSize + P.stepSize =
        P.start + ((n : ℝ) + 1) * P.stepSize := by ring
    simp only [runLoop, loopIter, ih, runLoop_nSteps, runLoop_date,
      List.range_succ, List.map_append, List.map_cons, List.map_nil, harg]

/-- Characterization of the access file: iteration `k` contributes a row,
labelled `k * stepSize` and built from the coverage at `start + k * stepSize`,
exactly when that coverage list is non-empty. -/
theorem runLoop_accRows {σ : Type} (P : LoopParams σ) (n : ℕ) :
    (runLoop P n).accRows = (List.range n).filterMap fun k : ℕ =>
      if (loopPointsAt P (P.start + (k : ℝ) * P.stepSize)).length > 0 then
        some ((k : ℝ) * P.stepSize,
          mkAccessRow P.numGridPoints
            (loopPointsAt P (P.start + (k : ℝ) * P.stepSize)))
      else none := by
  induction n with
  | zero => rfl
  | succ n ih =>
    simp only [runLoop, loopIter, ih, runLoop_nSteps, runLoop_date,
      List.range_succ, List.filterMap_append]
    congr 1
    by_cases h : (loopPointsAt P (P.start + (n : ℝ) * P.stepSize)).length > 0
    · simp [h]
    · simp [h]

/-- C1: at a heading whose cone angle exceeds the horizon limit
(`sinRho = 1/2 < 1 = sin(π/2)`), `projectionAlg` does not report a distinct
NoIntersection outcome: it evaluates `acos(2)`, which is NaN, and silently
returns the NaN-valued pair — the code lacks the guard the claim describes. -/
theorem projectionAlg_horizon_nan :
    projectionAlg 0 (Real.pi / 2) (0, 0, 1) 1 = (none, none) := by
  have h1 : divF (Real.sin (Real.pi / 2)) ((1 : ℝ) / (1 + 1)) = some 2 := by
    rw [divF, if_neg (by norm_num), Real.sin_pi_div_two]
    norm_num
  have h2 : acosF 2 = none := by
    rw [acosF, if_neg (by norm_num)]
  simp only [projectionAlg, h1, Option.some_bind, h2]

/-- C2 (counterexample): at clock `0`, cone `π/6`, sub-satellite position
`(π/3, 0, √3 − 1)` over a unit sphere, all hypotheses of the claim hold
(`clock ∈ [0, 2π)`, `cone ∈ [0, π]`, `sin cone = 1/2 ≤ 1/√3 = sinRho`,
non-polar latitude), yet the longitude component of the result is NaN
(`none`), not the real number the closed-form chain would have to produce:
the intersection latitude is exactly `π/2` and the `deltaL` division is
`0/0`. -/
theorem projectionAlg_spec_chain_cex :
    (0:ℝ) ≤ 0 ∧ (0:ℝ) < 2 * Real.pi ∧ (0:ℝ) ≤ Real.pi / 6 ∧
    Real.pi / 6 ≤ Real.pi ∧
    Real.sin (Real.pi / 6) ≤ specSinRho 1 (Real.sqrt 3 - 1) ∧
    |Real.pi / 3| < Real.pi / 2 ∧
    (projectionAlg 0 (Real.pi / 6) (Real.pi / 3, 0, Real.sqrt 3 - 1) 1).2 =
      none := by
  have h3pos : (0:ℝ) < Real.sqrt 3 := Real.sqrt_pos.2 (by norm_num)
  have hsq3 : Real.sqrt 3 ^ 2 = 3 := Real.sq_sqrt (by norm_num)
  have h3lt : Real.sqrt 3 < 2 := by nlinarith
  refine ⟨le_refl 0, by positivity, by positivity, by linarith [Real.pi_pos],
    ?_, ?_, projectionAlg_degenerate_eval⟩
  · rw [Real.sin_pi_div_six, specSinRho,
      show (1:ℝ) + (Real.sqrt 3 - 1) = Real.sqrt 3 by ring]
    rw [div_le_div_iff₀ (by norm_num) h3pos]
    linarith
  · rw [abs_of_pos (by positivity)]
    linarith [Real.pi_pos]

/-- C2 (amended): for clock in `[0, 2π)`, cone in `[0, π]` with
`sin cone ≤ sinRho`, positive radius, nonnegative height and non-polar
sub-satellite latitude, and additionally a non-polar computed intersection
latitude (the `latPPrime` arccos argument strictly inside `(-1, 1)`, which
excludes the pole-collapse headings on which the unguarded `deltaL`
division is `0/0`), `projectionAlg` returns exactly the pair given by the
spec's closed-form chain. -/
theorem projectionAlg_spec_chain_amended (clock cone latSSP lonSSP r H : ℝ)
    (hck0 : 0 ≤ clock) (hck2 : clock < 2 * Real.pi)
    (hc0 : 0 ≤ cone) (hcpi : cone ≤ Real.pi)
    (hr : 0 < r) (hH : 0 ≤ H)
    (hhor : Real.sin cone ≤ specSinRho r H)
    (hlat : |latSSP| < Real.pi / 2)
    (hs : |specLatArg clock cone latSSP r H| < 1) :
    projectionAlg clock cone (latSSP, lonSSP, H) r =
      (some (specLatP clock cone latSSP r H),
       some (specLonP clock cone latSSP lonSSP r H)) :=
  projectionAlg_eq_spec clock cone latSSP lonSSP r H hr hH hc0 hcpi hhor hlat hs

/-- C2 (witness): the amended theorem applied at clock `0`, cone `0`,
sub-satellite position `(0, 0, 1)`, radius `1`. -/
theorem projectionAlg_spec_chain_amended_witness :
    projectionAlg 0 0 (0, 0, 1) 1 =
      (some (specLatP 0 0 0 1 1), some (specLonP 0 0 0 0 1 1)) := by
  have hlam : specLambda 0 1 1 = 0 := by
    simp [specLambda, specEpsilon, Real.sin_zero, zero_div, Real.arccos_zero]
  have hsarg : specLatArg 0 0 0 1 1 = 0 := by
    simp [specLatArg, hlam, Real.sin_zero, Real.cos_zero]
  exact projectionAlg_spec_chain_amended 0 0 0 0 1 1 le_rfl
    (by positivity) le_rfl Real.pi_pos.le (by norm_num) (by norm_num)
    (by rw [Real.sin_zero]; norm_num [specSinRho])
    (by rw [abs_zero]; positivity)
    (by rw [hsarg, abs_zero]; norm_num)

/-- C3: at the body-fixed state with position `(2, 0, 0)`, purely radial
velocity `(1, 0, 0)` and radius `1`, the matrix built by
`getNadirToSpacecraftAccessMatrix` has the zero vector as its first column
(the negated, normalized topocentric velocity is `(0, 0, −1)`, parallel to
`zHat`), so it is not orthonormal: the code normalizes the full velocity
instead of projecting it onto the local horizontal as the spec requires. -/
theorem accessMatrix_radial_not_orthonormal :
    getNadirToSpacecraftAccessMatrix (2, 0, 0) (1, 0, 0) 1 =
      some ((0, 0, 0), (0, 0, -1), (0, 0, 1)) ∧
    ¬ isOrthonormal ((0, 0, 0), (0, 0, -1), (0, 0, 1)) := by
  constructor
  · have htopo : fixedToTopocentric ((1:ℝ), 0, 0) 0 0 = (0, 0, 1) := by
      rw [fixedToTopocentric]
      norm_num
    have hd1 : dot3 ((0:ℝ), 0, -1) ((0:ℝ), 0, -1) = 1 := by
      simp only [dot3]; norm_num
    have hn2 : norm3 ((0:ℝ), 0, -1) = 1 := by
      rw [norm3, hd1, Real.sqrt_one]
    have hnormF : normalizeF ((0:ℝ), 0, -1) = some (0, 0, -1) := by
      rw [normalizeF, if_neg (by rw [hn2]; norm_num)]
      rw [hn2]
      norm_num
    simp only [getNadirToSpacecraftAccessMatrix, cartesianToSpherical_eval_two,
      htopo]
    norm_num [hnormF, cross3]
  · intro h
    have h1 := h.1
    simp only [dot3] at h1
    norm_num at h1

/-- C4: at the polar sub-satellite latitude `π/2` (clock `0`, cone `π/6`,
height `1`, radius `1`) the `deltaL` division in `projectionAlg` is `0/0`:
the code performs the division unguarded and the longitude comes back NaN
(`none`) instead of the guarded value `deltaL = 0`, `lonP = lonSSP` that the
claim describes. -/
theorem projectionAlg_pole_division_nan :
    projectionAlg 0 (Real.pi / 6) (Real.pi / 2, 0, 1) 1 =
      (some (Real.pi / 6), none) := by
  have h1 : divF (Real.sin (Real.pi / 6)) ((1 : ℝ) / (1 + 1)) = some 1 := by
    rw [divF, if_neg (by norm_num), Real.sin_pi_div_six]
    norm_num
  have h2 : acosF 1 = some 0 := by
    rw [acosF, if_pos (by norm_num), Real.arccos_one]
  have hlam : Real.pi / 2 - Real.pi / 6 - 0 = Real.pi / 3 := by ring
  have h3 : acosF (Real.cos (Real.pi / 3) * Real.sin (Real.pi / 2) +
      Real.sin (Real.pi / 3) * Real.cos (Real.pi / 2) * Real.cos (-0)) =
      some (Real.pi / 3) := by
    rw [Real.cos_pi_div_three, Real.sin_pi_div_two, Real.cos_pi_div_two]
    have harg : (1 : ℝ) / 2 * 1 + Real.sin (Real.pi / 3) * 0 * Real.cos (-0) =
        1 / 2 := by
      ring
    rw [harg, acosF, if_pos (by rw [abs_le]; constructor <;> norm_num)]
    rw [show Real.arccos (1 / 2) = Real.pi / 3 by
      rw [← Real.cos_pi_div_three]
      exact Real.arccos_cos (by positivity) (by linarith [Real.pi_pos])]
  have h4 : divF (Real.cos (Real.pi / 3) - Real.sin (Real.pi / 2) *
      Real.sin (Real.pi / 6))
      (Real.cos (Real.pi / 2) * Real.cos (Real.pi / 6)) = none := by
    rw [divF, if_pos (by rw [Real.cos_pi_div_two]; ring)]
  have hlat : Real.pi / 2 - Real.pi / 3 = Real.pi / 6 := by ring
  simp only [projectionAlg, h1, Option.some_bind, hlam, h2, h3, h4,
    Option.none_bind, hlat]

/-- C5 (counterexample): the cone angle `π/6` lies inside the claim's
interval `[0, arcsin sinRho]` for the sub-satellite position
`(π/3, 0, √3 − 1)` with unit radius, yet the point returned by
`projectionAlg` there has a NaN (`none`) longitude, so the great-circle
distance from the sub-satellite point the claim quantifies over is not even
defined on the whole interval. -/
theorem coverage_monotonicity_cex :
    Real.pi / 6 ∈ Set.Icc (0:ℝ) (Real.arcsin (specSinRho 1 (Real.sqrt 3 - 1))) ∧
    (projectionAlg 0 (Real.pi / 6) (Real.pi / 3, 0, Real.sqrt 3 - 1) 1).2 =
      none := by
  have h3pos : (0:ℝ) < Real.sqrt 3 := Real.sqrt_pos.2 (by norm_num)
  have hsq3 : Real.sqrt 3 ^ 2 = 3 := Real.sq_sqrt (by norm_num)
  have h3lt : Real.sqrt 3 < 2 := by nlinarith
  refine ⟨Set.mem_Icc.2 ⟨by positivity, ?_⟩, projectionAlg_degenerate_eval⟩
  have hρ : specSinRho 1 (Real.sqrt 3 - 1) = 1 / Real.sqrt 3 := by
    rw [specSinRho, show (1:ℝ) + (Real.sqrt 3 - 1) = Real.sqrt 3 by ring]
  rw [hρ, ← arcsin_one_half]
  apply Real.monotone_arcsin
  rw [div_le_div_iff₀ (by norm_num) h3pos]
  linarith

/-- C5 (amended): holding the clock angle fixed, the earth-central
(great-circle) angle between the projected ground point and the
sub-satellite point is strictly increasing in the cone angle on
`[0, arcsin sinRho]`, provided the height is positive, the sub-satellite
latitude is non-polar, and the considered cone angles avoid the
pole-collapse headings (intersection latitude strictly non-polar); and for
any cone angle with `sin cone > sinRho` the result is the NaN pair — the
code's outcome for a heading that misses the sphere. -/
theorem coverage_monotonicity_amended :
    (∀ clock c1 c2 latSSP lonSSP r H : ℝ,
      0 < r → 0 < H → |latSSP| < Real.pi / 2 →
      0 ≤ c1 → c1 < c2 → c2 ≤ Real.arcsin (specSinRho r H) →
      |specLatArg clock c1 latSSP r H| < 1 →
      |specLatArg clock c2 latSSP r H| < 1 →
      ∃ p1 p2 : ℝ × ℝ,
        projectionAlg clock c1 (latSSP, lonSSP, H) r = (some p1.1, some p1.2) ∧
        projectionAlg clock c2 (latSSP, lonSSP, H) r = (some p2.1, some p2.2) ∧
        centralAngle p1 (latSSP, lonSSP) < centralAngle p2 (latSSP, lonSSP)) ∧
    (∀ clock cone latSSP lonSSP r H : ℝ, 0 < r → 0 ≤ H →
      specSinRho r H < Real.sin cone →
      projectionAlg clock cone (latSSP, lonSSP, H) r = (none, none)) :=
  ⟨fun clock c1 c2 latSSP lonSSP r H hr hH hlat hc10 h12 hc2top hs1 hs2 =>
    projection_centralAngle_lt clock c1 c2 latSSP lonSSP r H hr hH hlat hc10
      h12 hc2top hs1 hs2,
   fun clock cone latSSP lonSSP r H hr hH hgt =>
    projectionAlg_no_intersection clock cone latSSP lonSSP r H hr hH hgt⟩

/-- C5 (witness): the monotone part applied at clock `π/2`, cone angles `0`
and `π/6`, sub-satellite position `(0, 0, 1)` with radius `1` (so
`arcsin sinRho = π/6`), and the no-intersection part at cone `π/2` with
height `3` (so `sinRho = 1/4 < 1`). -/
theorem coverage_monotonicity_amended_witness :
    (∃ p1 p2 : ℝ × ℝ,
      projectionAlg (Real.pi / 2) 0 (0, 0, 1) 1 = (some p1.1, some p1.2) ∧
      projectionAlg (Real.pi / 2) (Real.pi / 6) (0, 0, 1) 1 =
        (some p2.1, some p2.2) ∧
      centralAngle p1 (0, 0) < centralAngle p2 (0, 0)) ∧
    projectionAlg 1 (Real.pi / 2) (0, 2, 3) 1 = (none, none) := by
  have hs0 : ∀ c : ℝ, specLatArg (Real.pi / 2) c 0 1 1 = 0 := by
    intro c
    simp [specLatArg, Real.sin_zero, Real.cos_zero, Real.cos_neg,
      Real.cos_pi_div_two]
  constructor
  · refine coverage_monotonicity_amended.1 (Real.pi / 2) 0 (Real.pi / 6) 0 0 1 1
      (by norm_num) (by norm_num) (by rw [abs_zero]; positivity)
      le_rfl (by positivity) ?_ ?_ ?_
    · rw [show specSinRho 1 1 = (1:ℝ) / 2 by norm_num [specSinRho],
        arcsin_one_half]
    · rw [hs0 0, abs_zero]; norm_num
    · rw [hs0 (Real.pi / 6), abs_zero]; norm_num
  · refine coverage_monotonicity_amended.2 1 (Real.pi / 2) 0 2 1 3
      (by norm_num) (by norm_num) ?_
    rw [Real.sin_pi_div_two]
    norm_num [specSinRho]

/-- C6: with cone angle `0` (boresight along nadir) and a non-polar
sub-satellite latitude, `projectionAlg` returns exactly the sub-satellite
point `(latSSP, lonSSP)`. -/
theorem projectionAlg_cone_zero_subsatellite (clock latSSP lonSSP r H : ℝ)
    (hck0 : 0 ≤ clock) (hck2 : clock < 2 * Real.pi)
    (hr : 0 < r) (hH : 0 ≤ H) (hlat : |latSSP| < Real.pi / 2) :
    projectionAlg clock 0 (latSSP, lonSSP, H) r =
      (some latSSP, some lonSSP) :=
  projectionAlg_cone_zero clock latSSP lonSSP r H hr hH hlat

/-- C6 (witness): the theorem applied at clock `3`, sub-satellite position
`(0, 7, 1)`, radius `1`. -/
theorem projectionAlg_cone_zero_subsatellite_witness :
    projectionAlg 3 0 (0, 7, 1) 1 = (some 0, some 7) :=
  projectionAlg_cone_zero_subsatellite 3 0 7 1 1 (by norm_num)
    (by linarith [Real.pi_gt_three]) (by norm_num) (by norm_num)
    (by rw [abs_zero]; positivity)

/-- C7: for a body-fixed state whose velocity is nonzero and exactly radial
(zero horizontal topocentric components), `getNadirToSpacecraftAccessMatrix`
performs no division by zero: the vector being normalized keeps the
velocity's magnitude, so the normalization succeeds and a matrix is
returned. -/
theorem accessMatrix_radial_normalize_safe (pos vel : ℝ × ℝ × ℝ) (r : ℝ)
    (hv : vel ≠ (0, 0, 0))
    (hE : (fixedToTopocentric vel (cartesianToSpherical pos r).1
      (cartesianToSpherical pos r).2.1).1 = 0)
    (hN : (fixedToTopocentric vel (cartesianToSpherical pos r).1
      (cartesianToSpherical pos r).2.1).2.1 = 0) :
    (getNadirToSpacecraftAccessMatrix pos vel r).isSome :=
  getNadir_isSome pos vel r hv

/-- C7 (witness): the theorem applied at position `(2, 0, 0)`, radial
velocity `(3, 0, 0)`, radius `1`. -/
theorem accessMatrix_radial_normalize_safe_witness :
    (getNadirToSpacecraftAccessMatrix (2, 0, 0) (3, 0, 0) 1).isSome := by
  have htopo : fixedToTopocentric ((3:ℝ), 0, 0) 0 0 = (0, 0, 3) := by
    rw [fixedToTopocentric]
    norm_num
  refine accessMatrix_radial_normalize_safe (2, 0, 0) (3, 0, 0) 1 ?_ ?_ ?_
  · intro h
    rw [Prod.ext_iff] at h
    norm_num at h
  · rw [cartesianToSpherical_eval_two, htopo]
  · rw [cartesianToSpherical_eval_two, htopo]

/-- C8: when `yaw180_flag` is set, the per-tick visible-point list written
out by the loop — the concatenation of the nominal-attitude coverage result
with the yaw-180 coverage result, sorted and deduplicated — is in ascending
order and contains no duplicate indices. -/
theorem yaw180_loopPoints_sorted_nodup {σ : Type} (P : LoopParams σ) (d : ℝ)
    (hyaw : P.yaw180 = true) :
    (loopPointsAt P d).Sorted (· ≤ ·) ∧ (loopPointsAt P d).Nodup := by
  rw [loopPointsAt, if_pos hyaw]
  exact sortAndUnique_sorted_nodup _

/-- C8 (witness): the theorem applied to concrete coverage lists `[3, 1, 3]`
and `[2]` with the yaw-180 flag set. -/
theorem yaw180_loopPoints_sorted_nodup_witness :
    (loopPointsAt wParamsYaw 0).Sorted (· ≤ ·) ∧
    (loopPointsAt wParamsYaw 0).Nodup :=
  yaw180_loopPoints_sorted_nodup wParamsYaw 0 rfl

/-- C9: for every iteration `k` of the loop, the access file contains a row
labelled `k * stepSize` if and only if the set of grid points visible at the
epoch `start + k * stepSize` is non-empty; a step with no visible point
contributes no row at all. -/
theorem accessFile_row_iff_visible {σ : Type} (P : LoopParams σ) (n k : ℕ)
    (hstep : 0 < P.stepSize) (hk : k < n) :
    (∃ row ∈ (runLoop P n).accRows, row.1 = (k : ℝ) * P.stepSize) ↔
      loopPointsAt P (P.start + (k : ℝ) * P.stepSize) ≠ [] := by
  rw [runLoop_accRows]
  constructor
  · rintro ⟨row, hrow, hlabel⟩
    obtain ⟨j, hj, hfj⟩ := List.mem_filterMap.1 hrow
    by_cases hcond : (loopPointsAt P (P.start + (j : ℝ) * P.stepSize)).length > 0
    · rw [if_pos hcond] at hfj
      have hrow_eq := Option.some.inj hfj
      have hlab2 : (j : ℝ) * P.stepSize = (k : ℝ) * P.stepSize := by
        rw [← hrow_eq] at hlabel
        exact hlabel
      have hjk : j = k := Nat.cast_injective
        (mul_right_cancel₀ (ne_of_gt hstep) hlab2)
      rw [← hjk]
      exact List.length_pos.1 hcond
    · rw [if_neg hcond] at hfj
      exact absurd hfj (by simp)
  · intro hne
    have hcond : 0 < (loopPointsAt P (P.start + (k : ℝ) * P.stepSize)).length :=
      List.length_pos.2 hne
    refine ⟨((k : ℝ) * P.stepSize,
      mkAccessRow P.numGridPoints
        (loopPointsAt P (P.start + (k : ℝ) * P.stepSize))), ?_, rfl⟩
    exact List.mem_filterMap.2 ⟨k, List.mem_range.2 hk, by rw [if_pos hcond]⟩

/-- C9 (witness): the theorem applied to a one-step loop whose coverage at
every epoch is the singleton `[0]`. -/
theorem accessFile_row_iff_visible_witness :
    (∃ row ∈ (runLoop wParamsAcc 1).accRows,
      row.1 = ((0 : ℕ) : ℝ) * wParamsAcc.stepSize) ↔
    loopPointsAt wParamsAcc
      (wParamsAcc.start + ((0 : ℕ) : ℝ) * wParamsAcc.stepSize) ≠ [] :=
  accessFile_row_iff_visible wParamsAcc 1 0
    (show (0:ℝ) < 1 by norm_num) (by norm_num)

/-- C10: in every iteration `k`, coverage is evaluated at the epoch
`start + k * stepSize`, but the Cartesian state written to the states file
under the label `k * stepSize` is the state after the date was advanced,
i.e. the state at `start + (k+1) * stepSize`; so a states-file row and an
access-file row sharing a time label refer to epochs one step apart. -/
theorem satFile_state_one_step_ahead {σ : Type} (P : LoopParams σ) (n k : ℕ)
    (hstep : 0 < P.stepSize) (hk : k < n) :
    (runLoop P n).satRows[k]? =
      some ((k : ℝ) * P.stepSize,
        P.stateAt (P.start + ((k : ℝ) + 1) * P.stepSize)) ∧
    ∀ row ∈ (runLoop P n).accRows, row.1 = (k : ℝ) * P.stepSize →
      row.2 = mkAccessRow P.numGridPoints
        (loopPointsAt P (P.start + (k : ℝ) * P.stepSize)) := by
  constructor
  · rw [runLoop_satRows, List.getElem?_map, List.getElem?_range hk]
    rfl
  · intro row hrow hlabel
    rw [runLoop_accRows] at hrow
    obtain ⟨j, hj, hfj⟩ := List.mem_filterMap.1 hrow
    by_cases hcond : (loopPointsAt P (P.start + (j : ℝ) * P.stepSize)).length > 0
    · rw [if_pos hcond] at hfj
      have hrow_eq := Option.some.inj hfj
      have hlab2 : (j : ℝ) * P.stepSize = (k : ℝ) * P.stepSize := by
        rw [← hrow_eq] at hlabel
        exact hlabel
      have hjk : j = k := Nat.cast_injective
        (mul_right_cancel₀ (ne_of_gt hstep) hlab2)
      rw [← hrow_eq, ← hjk]
    · rw [if_neg hcond] at hfj
      exact absurd hfj (by simp)

/-- C10 (witness): the theorem applied to a one-step loop. -/
theorem satFile_state_one_step_ahead_witness :
    (runLoop wParamsSat 1).satRows[0]? =
      some (((0 : ℕ) : ℝ) * wParamsSat.stepSize,
        wParamsSat.stateAt
          (wParamsSat.start + (((0 : ℕ) : ℝ) + 1) * wParamsSat.stepSize)) ∧
    ∀ row ∈ (runLoop wParamsSat 1).accRows,
      row.1 = ((0 : ℕ) : ℝ) * wParamsSat.stepSize →
      row.2 = mkAccessRow wParamsSat.numGridPoints
        (loopPointsAt wParamsSat
          (wParamsSat.start + ((0 : ℕ) : ℝ) * wParamsSat.stepSize)) :=
  satFile_state_one_step_ahead wParamsSat 1 0
    (show (0:ℝ) < 1 by norm_num) (by norm_num)
